import Mathlib

/-!
Verification of the decortion repository (universal-decorators-complete).

This file shallowly embeds the core of the library, found in
src/unnamed/part_000: the bounded LRU cache (class UniversalLRU), the cache
key builder (fastKey), the behavior wrappers super_cache, metrics, repeat,
async_retry, validate and rate_limit, and the composer super_matrix.
JavaScript values are modelled by the inductive JSVal (the library only
ever stores and compares primitive values through these code paths; objects
are stringified on entry to the key builder, a documented design
limitation), machine time by Int timestamps, and thrown errors by an
explicit JSErr error type threaded through Except.
-/

namespace Decortion

/-- JavaScript primitive values as they flow through the wrapper code paths. -/
inductive JSVal where
  | undef
  | null
  | num (n : Int)
  | str (s : String)
  | bool (b : Bool)
deriving DecidableEq, Repr

/-- JavaScript String(v) conversion for the primitive values modelled here. -/
def jsToString : JSVal → String
  | .undef => "undefined"
  | .null => "null"
  | .num n => toString n
  | .str s => s
  | .bool b => if b then "true" else "false"

/-- Element conversion used by Array.prototype.join: null and undefined map
to the empty string, every other value to its String conversion. -/
def joinElem : JSVal → String
  | .undef => ""
  | .null => ""
  | v => jsToString v

/-- Joining a list of strings with the "|" separator, the semantics of
Array.prototype.join applied to already-converted elements. -/
def joinParts : List String → String
  | [] => ""
  | [x] => x
  | x :: xs => x ++ "|" ++ joinParts xs

/-- fastKey (source lines 346-351): zero arguments give the fixed key "";
one argument is String-converted; two arguments use the + concatenation
fast path (which for primitive values coincides with String conversion);
three or more take the general args.join pipe-separated path.  -/
def fastKey : List JSVal → String
  | [] => ""
  | [a] => jsToString a
  | [a, b] => jsToString a ++ "|" ++ jsToString b
  | args => joinParts (args.map joinElem)

/-- The general key path of the key builder, args.join with separator "|",
for comparison with the fast paths of fastKey. -/
def joinKey (args : List JSVal) : String :=
  joinParts (args.map joinElem)

/-- class UniversalLRU (source lines 361-406).  The entries list models the
JavaScript Map in its insertion-iteration order: the head is the oldest
(first to be evicted), the last element the most recently inserted.  maxSize
is an Int because the constructor accepts any number, including zero and
negative values, without validation. -/
structure UniversalLRU where
  maxSize : Int
  entries : List (String × JSVal)
  hits : Nat
  misses : Nat
deriving DecidableEq, Repr

/-- The UniversalLRU constructor (source lines 362-367): it performs no
validation of maxSize and starts with an empty map and zero counters. -/
def UniversalLRU.mk0 (maxSize : Int) : UniversalLRU :=
  ⟨maxSize, [], 0, 0⟩

/-- Removing the entry of a key from the map.  A JavaScript Map holds each
key at most once, so deleting the key is removing every pair carrying it. -/
def eraseKey (l : List (String × JSVal)) (k : String) : List (String × JSVal) :=
  l.filter (fun e => e.1 != k)

/-- UniversalLRU.get (source lines 369-379).  On a hit the entry is deleted
and re-inserted (moving it to the most-recent end of the Map order) and the
hit counter grows; on a miss the miss counter grows and the JavaScript
value undefined is returned. -/
def UniversalLRU.get (c : UniversalLRU) (key : String) : JSVal × UniversalLRU :=
  match c.entries.lookup key with
  | some value =>
      (value,
       { c with entries := eraseKey c.entries key ++ [(key, value)],
                hits := c.hits + 1 })
  | none => (JSVal.undef, { c with misses := c.misses + 1 })

/-- UniversalLRU.set (source lines 381-389).  An existing key is deleted and
re-appended; a new key at capacity first evicts the first key of the Map
iteration order (on an empty map, keys().next().value is undefined and the
delete is a no-op, which List.tail mirrors); then the entry is appended. -/
def UniversalLRU.set (c : UniversalLRU) (key : String) (value : JSVal) : UniversalLRU :=
  if (c.entries.lookup key).isSome then
    { c with entries := eraseKey c.entries key ++ [(key, value)] }
  else if (c.entries.length : Int) ≥ c.maxSize then
    { c with entries := c.entries.tail ++ [(key, value)] }
  else
    { c with entries := c.entries ++ [(key, value)] }

/-! ### Basic lookup lemmas for the entries list -/

theorem lookup_none_of_not_mem (l : List (String × JSVal)) (k : String)
    (h : k ∉ l.map Prod.fst) : l.lookup k = none := by
  induction l with
  | nil => rfl
  | cons e t ih =>
      simp only [List.map_cons, List.mem_cons, not_or] at h
      have hk : (k == e.1) = false := by
        simp [beq_iff_eq]
        exact h.1
      simp only [List.lookup, hk]
      exact ih h.2

theorem mem_of_lookup_some (l : List (String × JSVal)) (k : String) (v : JSVal)
    (h : l.lookup k = some v) : k ∈ l.map Prod.fst := by
  induction l with
  | nil => simp [List.lookup] at h
  | cons e t ih =>
      by_cases hk : k = e.1
      · simp [hk]
      · have hk' : (k == e.1) = false := by simp [beq_iff_eq, hk]
        simp only [List.lookup, hk'] at h
        simp only [List.map_cons, List.mem_cons]
        exact Or.inr (ih h)

theorem lookup_isSome_of_mem (l : List (String × JSVal)) (k : String)
    (h : k ∈ l.map Prod.fst) : (l.lookup k).isSome := by
  induction l with
  | nil => simp at h
  | cons e t ih =>
      by_cases hk : k = e.1
      · have hk' : (k == e.1) = true := by simp [beq_iff_eq, hk]
        simp [List.lookup, hk']
      · have hk' : (k == e.1) = false := by simp [beq_iff_eq, hk]
        simp only [List.map_cons, List.mem_cons] at h
        rcases h with h | h
        · exact absurd h hk
        · simp only [List.lookup, hk']
          exact ih h

theorem lookup_append_of_left_none (l1 l2 : List (String × JSVal)) (k : String)
    (h : l1.lookup k = none) : (l1 ++ l2).lookup k = l2.lookup k := by
  induction l1 with
  | nil => rfl
  | cons e t ih =>
      by_cases hk : (k == e.1) = true
      · simp only [List.lookup, hk] at h
        cases h
      · have hk' : (k == e.1) = false := by
          cases hb : (k == e.1)
          · rfl
          · exact absurd hb hk
        simp only [List.lookup, hk'] at h
        simp only [List.cons_append, List.lookup, hk']
        exact ih h

theorem lookup_eraseKey_self (l : List (String × JSVal)) (k : String) :
    (eraseKey l k).lookup k = none := by
  apply lookup_none_of_not_mem
  intro hmem
  simp only [eraseKey] at hmem
  rcases List.mem_map.mp hmem with ⟨e, he, hfst⟩
  have := List.of_mem_filter he
  rw [hfst] at this
  simp at this

theorem eraseKey_length_lt (l : List (String × JSVal)) (k : String)
    (h : k ∈ l.map Prod.fst) : (eraseKey l k).length < l.length := by
  simp only [eraseKey]
  apply List.length_filter_lt_length_iff_exists.mpr
  rcases List.mem_map.mp h with ⟨p, hp, hfst⟩
  exact ⟨p, hp, by simp [hfst]⟩

/-! ### Claim C7: the miss marker versus cached undefined -/

/-- Claim C7 counterexample: the claim asserts that a miss result is
distinguishable from any legitimately cached value.  But a cache in which
the key "k" is legitimately stored with value undefined answers get "k"
with exactly the same marker (undefined) that a fresh cache answers for the
uncached key "k": the code conflates a cached undefined with a miss. -/
theorem c7_miss_marker_counterexample :
    (((UniversalLRU.mk0 8).set "k" JSVal.undef).entries.lookup "k").isSome = true ∧
    (((UniversalLRU.mk0 8).set "k" JSVal.undef).get "k").1 = JSVal.undef ∧
    ((UniversalLRU.mk0 8).get "k").1 = JSVal.undef := by
  refine ⟨by decide, by decide, by decide⟩

/-- Claim C7, amended: get on an uncached key returns undefined and
increments the miss counter; a cached value is returned as itself, so every
cached value other than undefined (in particular a cached null) is
distinguishable from a miss, but a cached undefined is conflated with a
miss (the known limitation recorded in section 9 of the spec). -/
theorem c7_miss_marker_amended :
    (∀ (c : UniversalLRU) (k : String),
      c.entries.lookup k = none →
      (c.get k).1 = JSVal.undef ∧ (c.get k).2.misses = c.misses + 1) ∧
    (∀ (c : UniversalLRU) (k : String) (v : JSVal),
      c.entries.lookup k = some v →
      (c.get k).1 = v ∧ (c.get k).2.hits = c.hits + 1 ∧
      (v ≠ JSVal.undef → (c.get k).1 ≠ JSVal.undef)) := by
  constructor
  · intro c k h
    simp [UniversalLRU.get, h]
  · intro c k v h
    simp [UniversalLRU.get, h]

/-- Witness for the amended C7 theorem at concrete inputs: a fresh cache
misses on "k", and a cache storing null for "k" returns null, which differs
from the undefined miss marker. -/
theorem c7_miss_marker_amended_witness :
    (((UniversalLRU.mk0 4).get "k").1 = JSVal.undef ∧
      ((UniversalLRU.mk0 4).get "k").2.misses = (UniversalLRU.mk0 4).misses + 1) ∧
    (((UniversalLRU.mk0 4).set "k" JSVal.null).get "k").1 = JSVal.null := by
  refine ⟨c7_miss_marker_amended.1 (UniversalLRU.mk0 4) "k" (by decide), ?_⟩
  exact (c7_miss_marker_amended.2 ((UniversalLRU.mk0 4).set "k" JSVal.null) "k"
    JSVal.null (by decide)).1

/-! ### Claim C8: fastKey fast paths versus the general join path -/

/-- Claim C8 counterexample: the single-argument fast path String-converts
the argument, so a null argument yields the key "null", while the general
args.join path converts null to the empty string and would yield "".  The
fast path is therefore a behavioral difference, not a pure optimization. -/
theorem c8_fastKey_counterexample :
    fastKey [JSVal.null] = "null" ∧ joinKey [JSVal.null] = "" ∧
    fastKey [JSVal.null] ≠ joinKey [JSVal.null] := by
  refine ⟨rfl, rfl, by decide⟩

/-- Claim C8, amended: the zero-argument call maps to the fixed key "", and
for every argument list whose elements are neither undefined nor null the
single- and double-argument fast paths produce the same key as the general
join path; null and undefined arguments are the only divergence (the fast
paths render them as "null" and "undefined", join as the empty string). -/
theorem c8_fastKey_amended :
    fastKey [] = "" ∧
    ∀ args : List JSVal,
      (∀ a ∈ args, a ≠ JSVal.undef ∧ a ≠ JSVal.null) →
      fastKey args = joinKey args := by
  refine ⟨rfl, ?_⟩
  intro args h
  have hconv : ∀ a ∈ args, joinElem a = jsToString a := by
    intro a ha
    rcases h a ha with ⟨hu, hn⟩
    cases a with
    | undef => exact absurd rfl hu
    | null => exact absurd rfl hn
    | num n => rfl
    | str s => rfl
    | bool b => rfl
  match args with
  | [] => rfl
  | [a] =>
      simp only [fastKey, joinKey, List.map_cons, List.map_nil, joinParts]
      exact (hconv a (by simp)).symm
  | [a, b] =>
      simp only [fastKey, joinKey, List.map_cons, List.map_nil, joinParts]
      rw [hconv a (by simp), hconv b (by simp)]
  | a :: b :: c :: rest => rfl

/-- Witness for the amended C8 theorem: a concrete two-argument call whose
fast-path key equals the general join key. -/
theorem c8_fastKey_amended_witness :
    fastKey [JSVal.num 1, JSVal.str "x"] = joinKey [JSVal.num 1, JSVal.str "x"] := by
  exact c8_fastKey_amended.2 [JSVal.num 1, JSVal.str "x"] (by decide)

/-! ### Claim C9: capacity at most zero -/

/-- Sequential insertion of a list of pairs, modelling repeated set calls. -/
def setAll (c : UniversalLRU) (l : List (String × JSVal)) : UniversalLRU :=
  l.foldl (fun acc e => acc.set e.1 e.2) c

/-- Claim C9 counterexample: the constructor accepts capacity 0 without
rejection, and inserting into the resulting cache does store an entry, so
the cache neither rejects the configuration nor behaves as never-cache. -/
theorem c9_zero_capacity_counterexample :
    ((UniversalLRU.mk0 0).set "k" (JSVal.num 1)).entries = [("k", JSVal.num 1)] ∧
    ((UniversalLRU.mk0 0).set "k" (JSVal.num 1)).entries ≠ [] := by
  refine ⟨by decide, by decide⟩

/-- Claim C9, amended: capacity at most 0 is accepted by the constructor
(which performs no validation), inserting never crashes (evicting from an
empty map is a no-op), but entries are stored: the cache behaves as a
one-entry cache, holding at most one entry after any sequence of set calls
from empty, and every set leaves its own key retrievable. -/
theorem c9_zero_capacity_amended (N : Int) (hN : N ≤ 0) (l : List (String × JSVal)) :
    (setAll (UniversalLRU.mk0 N) l).entries.length ≤ 1 ∧
    (∀ (c : UniversalLRU) (k : String) (v : JSVal),
      (c.set k v).entries.lookup k = some v) := by
  constructor
  · have key : ∀ (m : List (String × JSVal)) (c : UniversalLRU),
        c.maxSize = N → c.entries.length ≤ 1 →
        (setAll c m).entries.length ≤ 1 := by
      intro m
      induction m with
      | nil => intro c _ hlen; exact hlen
      | cons e t ih =>
          intro c hc hlen
          have hstep : (c.set e.1 e.2).maxSize = N ∧
              (c.set e.1 e.2).entries.length ≤ 1 := by
            simp only [UniversalLRU.set]
            split
            · rename_i hsome
              rcases Option.isSome_iff_exists.mp hsome with ⟨v, hv⟩
              have hmem := mem_of_lookup_some _ _ _ hv
              have hlt := eraseKey_length_lt c.entries e.1 hmem
              constructor
              · exact hc
              · simp only [List.length_append, List.length_cons, List.length_nil]
                omega
            · split
              · constructor
                · exact hc
                · simp only [List.length_append, List.length_cons, List.length_nil]
                  have htail : c.entries.tail.length = c.entries.length - 1 :=
                    List.length_tail c.entries
                  omega
              · rename_i hnone hlt
                exfalso
                push_neg at hlt
                have hpos : (0 : Int) ≤ (c.entries.length : Int) :=
                  Int.natCast_nonneg _
                rw [hc] at hlt
                omega
          exact ih (c.set e.1 e.2) hstep.1 hstep.2
    exact key l (UniversalLRU.mk0 N) rfl (by simp [UniversalLRU.mk0])
  · intro c k v
    simp only [UniversalLRU.set]
    split
    · dsimp only
      rw [lookup_append_of_left_none _ _ _ (lookup_eraseKey_self c.entries k)]
      simp [List.lookup]
    · rename_i hnone
      have hnotmem : k ∉ c.entries.map Prod.fst := fun hmem =>
        hnone (lookup_isSome_of_mem _ _ hmem)
      split
      · dsimp only
        rw [lookup_append_of_left_none]
        · simp [List.lookup]
        · exact lookup_none_of_not_mem _ _ (fun hmem =>
            hnotmem (((List.tail_sublist c.entries).map Prod.fst).subset hmem))
      · dsimp only
        rw [lookup_append_of_left_none]
        · simp [List.lookup]
        · exact lookup_none_of_not_mem _ _ hnotmem

/-- Witness for the amended C9 theorem: with capacity 0, inserting two
entries leaves at most one stored, and each set leaves its key present. -/
theorem c9_zero_capacity_amended_witness :
    (setAll (UniversalLRU.mk0 0) [("a", JSVal.num 1), ("b", JSVal.num 2)]).entries.length ≤ 1 ∧
    ((UniversalLRU.mk0 0).set "a" (JSVal.num 1)).entries.lookup "a" = some (JSVal.num 1) := by
  have h := c9_zero_capacity_amended 0 (by decide)
    [("a", JSVal.num 1), ("b", JSVal.num 2)]
  exact ⟨h.1, h.2 (UniversalLRU.mk0 0) "a" (JSVal.num 1)⟩

/-! ### super_cache (source lines 518-539) and the two-call scenarios -/

/-- The cache size chosen by super_cache (source lines 519-521):
sizes = \x7b light: 32, balanced: maxsize, fast: 256 \x7d and then
sizes[type] || maxsize, where the JavaScript or-operator falls back to
maxsize when the looked-up value is absent or the falsy number 0. -/
def superCacheSize (type : String) (maxsize : Int) : Int :=
  let lookedUp : Option Int :=
    if type = "light" then some 32
    else if type = "balanced" then some maxsize
    else if type = "fast" then some 256
    else none
  match lookedUp with
  | some v => if v = 0 then maxsize else v
  | none => maxsize

/-- cachedMethod (source lines 523-531), generic in the wrapped inner
function so that the same definition serves super_cache applied to a plain
base function and super_matrix applying the cache layer outermost.  The
inner function threads its own private state of type s. -/
def cachedCall {s : Type} (inner : s → List JSVal → JSVal × s)
    (st : UniversalLRU × s) (args : List JSVal) : JSVal × (UniversalLRU × s) :=
  let cacheKey := fastKey args
  let gr := st.1.get cacheKey
  if gr.1 = JSVal.undef then
    let iv := inner st.2 args
    (iv.1, ((gr.2).set cacheKey iv.1, iv.2))
  else
    (gr.1, (gr.2, st.2))

/-- A pure base function instrumented with an invocation counter, used to
observe how many times the wrappers invoke the underlying function. -/
def countedBase (f : List JSVal → JSVal) : Nat → List JSVal → JSVal × Nat :=
  fun n args => (f args, n + 1)

/-- Calling a stateful wrapped function twice with the same argument list,
returning both results and the final state. -/
def twoCalls {s : Type} (wrapped : s → List JSVal → JSVal × s)
    (s0 : s) (args : List JSVal) : JSVal × JSVal × s :=
  let r1 := wrapped s0 args
  let r2 := wrapped r1.2 args
  (r1.1, r2.1, r2.2)

theorem get_entries_nil (N : Int) (h m : Nat) (key : String) :
    UniversalLRU.get ⟨N, [], h, m⟩ key = (JSVal.undef, ⟨N, [], h, m + 1⟩) := rfl

theorem get_entries_single (N : Int) (h m : Nat) (k : String) (v : JSVal) :
    UniversalLRU.get ⟨N, [(k, v)], h, m⟩ k = (v, ⟨N, [(k, v)], h + 1, m⟩) := by
  simp [UniversalLRU.get, List.lookup, eraseKey]

theorem set_entries_nil (N : Int) (h m : Nat) (k : String) (v : JSVal) :
    UniversalLRU.set ⟨N, [], h, m⟩ k v = ⟨N, [(k, v)], h, m⟩ := by
  simp only [UniversalLRU.set, List.lookup, Option.isSome_none, Bool.false_eq_true,
    if_false]
  split <;> rfl

theorem set_entries_single (N : Int) (h m : Nat) (k : String) (v v2 : JSVal) :
    UniversalLRU.set ⟨N, [(k, v)], h, m⟩ k v2 = ⟨N, [(k, v2)], h, m⟩ := by
  simp [UniversalLRU.set, List.lookup, eraseKey]

/-! ### Claim C3: super_cache idempotence on two identical calls -/

/-- The base function of the C3 counterexample: it returns undefined. -/
def undefBase : List JSVal → JSVal := fun _ => JSVal.undef

/-- Claim C3 counterexample: for a base function returning undefined, two
identical calls of the super_cache-wrapped function invoke the base
function twice, not exactly once — the cached undefined is mistaken for a
miss (result === undefined) and recomputed. -/
theorem c3_cache_idempotence_counterexample :
    (twoCalls (cachedCall (countedBase undefBase))
      (UniversalLRU.mk0 (superCacheSize "balanced" 128), 0) [JSVal.num 1]).2.2.2 = 2 := by
  decide

/-- Claim C3, amended: for every super_cache configuration and every pair
of calls of the wrapped function with identical argument lists, provided
the base function's result for those arguments is not undefined, the base
function is invoked exactly once and both calls return its result; the hit
counter read by cache_info() equals 1 after the second call in all cases
(even for an undefined result, whose second lookup is a hit before being
recomputed). -/
theorem c3_cache_idempotence_amended (type : String) (maxsize : Int)
    (f : List JSVal → JSVal) (args : List JSVal) :
    (f args ≠ JSVal.undef →
      twoCalls (cachedCall (countedBase f))
          (UniversalLRU.mk0 (superCacheSize type maxsize), 0) args =
        (f args, f args,
          (⟨superCacheSize type maxsize, [(fastKey args, f args)], 1, 1⟩, 1))) ∧
    (twoCalls (cachedCall (countedBase f))
        (UniversalLRU.mk0 (superCacheSize type maxsize), 0) args).2.2.1.hits = 1 := by
  have hrun1 :
      cachedCall (countedBase f) (UniversalLRU.mk0 (superCacheSize type maxsize), 0) args =
        (f args, (⟨superCacheSize type maxsize, [(fastKey args, f args)], 0, 1⟩, 1)) := by
    simp [cachedCall, UniversalLRU.mk0, get_entries_nil, set_entries_nil, countedBase]
  constructor
  · intro hf
    simp only [twoCalls, hrun1]
    simp only [cachedCall, get_entries_single, countedBase]
    rw [if_neg hf]
  · by_cases hf : f args = JSVal.undef
    · simp only [twoCalls, hrun1]
      simp only [cachedCall, get_entries_single, countedBase, hf, if_pos]
      simp [set_entries_single]
    · simp only [twoCalls, hrun1]
      simp only [cachedCall, get_entries_single, countedBase]
      rw [if_neg hf]

/-- The base function used by the C3 witness: it returns the number 7. -/
def sevenBase : List JSVal → JSVal := fun _ => JSVal.num 7

/-- Witness for the amended C3 theorem at a concrete configuration: the
base runs once, both calls return 7, and the hit counter is 1. -/
theorem c3_cache_idempotence_amended_witness :
    twoCalls (cachedCall (countedBase sevenBase))
        (UniversalLRU.mk0 (superCacheSize "fast" 128), 0) [JSVal.num 1] =
      (JSVal.num 7, JSVal.num 7,
        (⟨superCacheSize "fast" 128, [(fastKey [JSVal.num 1], JSVal.num 7)], 1, 1⟩, 1)) := by
  exact (c3_cache_idempotence_amended "fast" 128 sevenBase [JSVal.num 1]).1 (by decide)

/-! ### super_matrix (source lines 980-1021) -/

/-- The configuration keys recognized by super_matrix.  The constructor
repeatDec stands for the source key named repeat (a reserved word here);
cache is handled outside the order list, after the loop. -/
inductive DecKey where
  | validate
  | rateLimit
  | protect
  | varGuard
  | timeLimit
  | asyncRetry
  | repeatDec
  | throttle
  | debounce
  | immutable
  | inherit
  | log
  | metrics
deriving DecidableEq, Repr

/-- decoratorOrder (source lines 985-999): the fixed order in which
super_matrix applies the configured decorators; a later list entry wraps
the result of the earlier ones, so later entries are more outer.  The
cache decorator is applied after this whole list (source lines 1011-1017)
and is therefore always outermost. -/
def decoratorOrder : List DecKey :=
  [.validate, .rateLimit, .protect, .varGuard, .timeLimit, .asyncRetry,
   .repeatDec, .throttle, .debounce, .immutable, .inherit, .log, .metrics]

/-- The metrics accumulator (source lines 919-925), restricted to the
counters whose evolution is observable in this embedding; totalDuration,
durations and lastCalled record wall-clock readings and are not modelled. -/
structure MetricsData where
  calls : Nat
  errors : Nat
deriving DecidableEq, Repr

/-- metrics wrappedMethod (source lines 944-957) around a pure base
function, with the default track list (which contains calls): every
invocation that reaches this layer increments the call counter. -/
def metricsWrap (f : List JSVal → JSVal) :
    MetricsData → List JSVal → JSVal × MetricsData :=
  fun m args => (f args, { m with calls := m.calls + 1 })

/-- super_matrix with exactly cache and metrics configured: the loop over
decoratorOrder applies only the metrics wrapper, and the cache wrapper is
applied afterwards, outermost (source lines 1002-1017). -/
def superMatrixCacheMetrics (_type : String) (_maxsize : Int)
    (f : List JSVal → JSVal) :
    (UniversalLRU × MetricsData) → List JSVal → JSVal × (UniversalLRU × MetricsData) :=
  cachedCall (metricsWrap f)

/-! ### Claim C2: fixed precedence order and the cache/metrics consequence -/

/-- Claim C2 counterexample: with cache and metrics configured and a base
function returning undefined, two identical calls of the composed function
record two metrics invocations, not one — the cached undefined is treated
as a miss and the second call reaches the metrics layer again. -/
theorem c2_matrix_order_counterexample :
    (twoCalls (superMatrixCacheMetrics "fast" 128 undefBase)
      (UniversalLRU.mk0 (superCacheSize "fast" 128), ⟨0, 0⟩) [JSVal.num 1]).2.2.2.calls
      = 2 := by
  decide

/-- Claim C2, amended: super_matrix applies the configured wrappers to the
base function in the fixed precedence order validate, rate-limit, protect,
var-guard, time-limit, async-retry, repeat, throttle, debounce, immutable,
inherit-from, log, metrics, with cache applied last (outermost);
consequently, when both cache and metrics are configured, two calls of the
composed function with identical arguments record exactly one invocation
in the metrics accumulator provided the composed result for those
arguments is not undefined (an undefined result is recomputed on the
second call, which then reaches the metrics layer again). -/
theorem c2_matrix_order_amended :
    decoratorOrder =
      [DecKey.validate, DecKey.rateLimit, DecKey.protect, DecKey.varGuard,
       DecKey.timeLimit, DecKey.asyncRetry, DecKey.repeatDec, DecKey.throttle,
       DecKey.debounce, DecKey.immutable, DecKey.inherit, DecKey.log,
       DecKey.metrics] ∧
    ∀ (type : String) (maxsize : Int) (f : List JSVal → JSVal) (args : List JSVal),
      f args ≠ JSVal.undef →
      (twoCalls (superMatrixCacheMetrics type maxsize f)
        (UniversalLRU.mk0 (superCacheSize type maxsize), ⟨0, 0⟩) args).2.2.2.calls = 1 := by
  refine ⟨rfl, ?_⟩
  intro type maxsize f args hf
  have hrun1 :
      superMatrixCacheMetrics type maxsize f
          (UniversalLRU.mk0 (superCacheSize type maxsize), ⟨0, 0⟩) args =
        (f args,
          (⟨superCacheSize type maxsize, [(fastKey args, f args)], 0, 1⟩, ⟨1, 0⟩)) := by
    simp [superMatrixCacheMetrics, cachedCall, UniversalLRU.mk0, get_entries_nil,
      set_entries_nil, metricsWrap]
  simp only [twoCalls, hrun1]
  simp only [superMatrixCacheMetrics, cachedCall, get_entries_single, metricsWrap]
  rw [if_neg hf]

/-- Witness for the amended C2 theorem at a concrete configuration: two
identical calls with a base returning 7 record exactly one metrics call. -/
theorem c2_matrix_order_amended_witness :
    (twoCalls (superMatrixCacheMetrics "light" 64 sevenBase)
      (UniversalLRU.mk0 (superCacheSize "light" 64), ⟨0, 0⟩) [JSVal.num 1]).2.2.2.calls
      = 1 := by
  exact c2_matrix_order_amended.2 "light" 64 sevenBase [JSVal.num 1] (by decide)

/-! ### Error classes (source lines 408-448) -/

/-- Thrown values as observed through the wrappers.  userError models an
error thrown by a base function, identified by the numeric identity of its
class (errors of class k satisfy instanceof exactly for that class).
retryError carries the fields a RetryError instance holds: its message,
its attempts field, and the originalError slot of DecoratorError.
thrownUndefined models the JavaScript statement throwing the value
undefined (reachable in repeat when times is 0 and lastError was never
assigned). -/
inductive JSErr where
  | validationError (message : String) (fieldName : String)
  | rateLimitError (message : String) (retryAfter : Int)
  | timeoutError (message : String) (timeLimit : Int)
  | retryError (message : String) (attempts : Nat) (originalError : Option Nat)
  | typeError (message : String)
  | userError (kind : Nat)
  | thrownUndefined
deriving DecidableEq, Repr

/-- The RetryError constructor (source lines 442-448): it accepts exactly
two parameters, message and attempts, and forwards (message, 'asyncRetry')
to DecoratorError, whose third parameter originalError is therefore
undefined.  The call site in async_retry (source line 784) passes a third
argument, the last underlying error, but JavaScript drops arguments beyond
the declared parameters, so the constructed error never carries it. -/
def RetryError.make (message : String) (attempts : Nat) : JSErr :=
  JSErr.retryError message attempts none

/-- The instanceof test run by async_retry over the retryOn list of error
classes: a base-function error of class k is an instance of class k; the
wrapper-made errors are not instances of any user-supplied class. -/
def instOfAny (e : JSErr) (classes : List Nat) : Bool :=
  match e with
  | .userError k => classes.contains k
  | _ => false

/-! ### repeat (source lines 608-626) -/

/-- The loop body of repeatedMethod (source lines 610-624).  The base
function is modelled as a map from its invocation index to an outcome, so
that a function failing a prefix of its invocations is expressible.  The
first component is the overall outcome, the second the total number of
invocations performed.  The busy-wait delay between attempts (source lines
617-620) has no observable effect in this embedding.  When the attempt
budget is exhausted the recorded lastError is thrown; if no attempt ever
ran, JavaScript throws the undefined value. -/
def repeatLoop (f : Nat → Except JSErr JSVal) :
    Nat → Nat → Option JSErr → Except JSErr JSVal × Nat
  | 0, calls, lastError => (.error (lastError.getD JSErr.thrownUndefined), calls)
  | Nat.succ fuel, calls, _ =>
      match f calls with
      | .ok v => (.ok v, calls + 1)
      | .error e => repeatLoop f fuel (calls + 1) (some e)

/-- repeatedMethod with times attempts, starting from no recorded error. -/
def repeatCall (times : Nat) (f : Nat → Except JSErr JSVal) :
    Except JSErr JSVal × Nat :=
  repeatLoop f times 0 none

theorem repeatLoop_succ_eq (f : Nat → Except JSErr JSVal) (fuel calls : Nat)
    (le : Option JSErr) :
    repeatLoop f (fuel + 1) calls le =
      match f calls with
      | .ok v => (.ok v, calls + 1)
      | .error e => repeatLoop f fuel (calls + 1) (some e) := rfl

theorem repeatLoop_reaches_success (f : Nat → Except JSErr JSVal) (k : Nat)
    (v : JSVal) (es : Nat → JSErr) (hk : 1 ≤ k)
    (hfail : ∀ i, i + 1 < k → f i = .error (es i))
    (hsucc : f (k - 1) = .ok v) :
    ∀ fuel c le, c ≤ k - 1 → k - 1 < c + fuel →
      repeatLoop f fuel c le = (.ok v, k) := by
  intro fuel
  induction fuel with
  | zero => intro c le hc hlt; omega
  | succ n ih =>
      intro c le hc hlt
      by_cases hck : c = k - 1
      · subst hck
        rw [repeatLoop_succ_eq, hsucc]
        dsimp only
        have harith : k - 1 + 1 = k := by omega
        rw [harith]
      · have hfc := hfail c (by omega)
        rw [repeatLoop_succ_eq, hfc]
        dsimp only
        exact ih (c + 1) (some (es c)) (by omega) (by omega)

theorem repeatLoop_exhausts (f : Nat → Except JSErr JSVal) (k : Nat)
    (es : Nat → JSErr)
    (hfail : ∀ i, i + 1 < k → f i = .error (es i)) :
    ∀ fuel c le, 1 ≤ fuel → c + fuel + 1 ≤ k →
      repeatLoop f fuel c le = (.error (es (c + fuel - 1)), c + fuel) := by
  intro fuel
  induction fuel with
  | zero => intro c le h1 _; omega
  | succ n ih =>
      intro c le _ hck
      have hfc := hfail c (by omega)
      rw [repeatLoop_succ_eq, hfc]
      dsimp only
      cases n with
      | zero => simp [repeatLoop]
      | succ m =>
          have hrec := ih (c + 1) (some (es c)) (by omega) (by omega)
          rw [hrec]
          have h1 : c + 1 + (m + 1) - 1 = c + (m + 1 + 1) - 1 := by omega
          have h2 : c + 1 + (m + 1) = c + (m + 1 + 1) := by omega
          rw [h1, h2]

/-! ### Claim C10: repeat with a base failing k-1 times -/

/-- Claim C10: for a base function that fails its first k-1 invocations and
succeeds on invocation k, repeat(times) returns the success value after
exactly k invocations when times is at least k, and when 1 <= times < k it
invokes the base exactly times times and raises the last error produced
(the error of invocation number times). -/
theorem c10_repeat_attempts (k times : Nat) (f : Nat → Except JSErr JSVal)
    (v : JSVal) (es : Nat → JSErr)
    (hk : 1 ≤ k)
    (hfail : ∀ i, i + 1 < k → f i = .error (es i))
    (hsucc : f (k - 1) = .ok v) :
    (k ≤ times → repeatCall times f = (.ok v, k)) ∧
    (1 ≤ times → times < k → repeatCall times f = (.error (es (times - 1)), times)) := by
  constructor
  · intro hkt
    exact repeatLoop_reaches_success f k v es hk hfail hsucc times 0 none
      (by omega) (by omega)
  · intro h1 hlt
    have := repeatLoop_exhausts f k es hfail times 0 none h1 (by omega)
    simpa using this

/-- The base function of the C10 witness: it fails its first invocation
with a class-1 error and succeeds with the number 5 from then on. -/
def flakyBase : Nat → Except JSErr JSVal :=
  fun i => if i = 0 then .error (JSErr.userError 1) else .ok (JSVal.num 5)

/-- Witness for C10 at k = 2: with 3 attempts the wrapped call succeeds
after 2 invocations; with 1 attempt it raises the first error after
exactly 1 invocation. -/
theorem c10_repeat_attempts_witness :
    repeatCall 3 flakyBase = (.ok (JSVal.num 5), 2) ∧
    repeatCall 1 flakyBase = (.error (JSErr.userError 1), 1) := by
  have h := c10_repeat_attempts 2 3 flakyBase (JSVal.num 5)
    (fun _ => JSErr.userError 1) (by omega)
    (by intro i hi; have : i = 0 := by omega
        subst this; rfl)
    (by rfl)
  have h2 := c10_repeat_attempts 2 1 flakyBase (JSVal.num 5)
    (fun _ => JSErr.userError 1) (by omega)
    (by intro i hi; have : i = 0 := by omega
        subst this; rfl)
    (by rfl)
  exact ⟨h.1 (by omega), h2.2 (by omega) (by omega)⟩

/-! ### async_retry (source lines 757-787) -/

/-- The message of the retry-exhausted error (source line 784). -/
def retryExhaustedMsg (propertyKey : String) (attempts : Nat) : String :=
  "Method " ++ propertyKey ++ " failed after " ++ toString attempts ++ " attempts"

/-- The loop body of retryMethod (source lines 761-785).  On a failure,
when retryOn is non-empty and the error is an instance of none of the
listed classes, the error is rethrown at once; otherwise the loop retries
(the backoff delay between attempts, source lines 775-780, has no
observable effect here).  After the budget is exhausted the RetryError is
constructed: the call site passes the last error as a third argument, but
RetryError.make has no parameter for it (see its doc comment), so the
constructed error carries attempts only. -/
def asyncRetryLoop (retryOn : List Nat) (attempts : Nat) (propertyKey : String)
    (f : Nat → Except JSErr JSVal) :
    Nat → Nat → Except JSErr JSVal × Nat
  | 0, calls =>
      (.error (RetryError.make (retryExhaustedMsg propertyKey attempts) attempts), calls)
  | Nat.succ fuel, calls =>
      match f calls with
      | .ok v => (.ok v, calls + 1)
      | .error e =>
          if retryOn ≠ [] ∧ instOfAny e retryOn = false then (.error e, calls + 1)
          else asyncRetryLoop retryOn attempts propertyKey f fuel (calls + 1)

/-- retryMethod with the configured attempts budget. -/
def async_retryCall (retryOn : List Nat) (attempts : Nat) (propertyKey : String)
    (f : Nat → Except JSErr JSVal) : Except JSErr JSVal × Nat :=
  asyncRetryLoop retryOn attempts propertyKey f attempts 0

/-- The base function of the C4 evaluation: it always throws a class-7
error. -/
def alwaysFailBase : Nat → Except JSErr JSVal :=
  fun _ => .error (JSErr.userError 7)

/-- The originalError slot of a thrown error: only a DecoratorError
subclass instance carries one, and among the modelled errors only
RetryError instances are constructed where it could matter. -/
def JSErr.originalError : JSErr → Option Nat
  | .retryError _ _ o => o
  | _ => none

/-! ### Claim C4: async_retry error filtering and the exhausted failure -/

/-- Claim C4 evaluated at the failing input: (a) with retryOn = [5], a
class-7 error is rethrown immediately after a single attempt, as the claim
states; but (b) with retryOn = [] and attempts = 2, the error raised after
exhaustion is a RetryError whose originalError field is none: the attempt
count is carried but the last underlying error (the class-7 error) is not,
because the RetryError constructor accepts only (message, attempts) while
the call site passes the last error as a dropped third argument. -/
theorem c4_async_retry_code_evaluation :
    async_retryCall [5] 3 "m" alwaysFailBase = (.error (JSErr.userError 7), 1) ∧
    async_retryCall [] 2 "m" alwaysFailBase =
      (.error (JSErr.retryError "Method m failed after 2 attempts" 2 none), 2) ∧
    (∀ msg attempts, (RetryError.make msg attempts).originalError = none) := by
  refine ⟨by rfl, ?_, ?_⟩
  · have h : retryExhaustedMsg "m" 2 = "Method m failed after 2 attempts" := rfl
    simp [async_retryCall, asyncRetryLoop, alwaysFailBase, instOfAny,
      RetryError.make, h]
  · intro msg attempts
    rfl

/-! ### rate_limit (source lines 856-906) -/

/-- One callData record of the calls map (source line 869): the count and
window start, plus the last successful result recorded for the
cache strategy (source line 901). -/
structure RLEntry where
  count : Nat
  start : Int
  lastResult : Option JSVal
deriving DecidableEq, Repr

/-- The rate limiter state for the claim's configuration: no per function
is configured, so every call uses the single partition key 'global'
(source line 868); the stored entry for that key is globalEntry.  The
baseCalls counter instruments how often the base function has run. -/
structure RLState where
  globalEntry : Option RLEntry
  baseCalls : Nat
deriving DecidableEq, Repr

/-- The window length in milliseconds (source lines 864-866). -/
def windowMsOf (window : String) : Int :=
  if window = "1s" then 1000
  else if window = "1m" then 60000
  else if window = "1h" then 3600000
  else 86400000

/-- rateLimitedMethod with the reject strategy (source lines 862-904),
called at time now.  The base function is pure, modelled by its invocation
index.  Mutations of the callData object fetched from the map persist in
the map (JavaScript aliasing), except when the object was freshly created
and is thrown away before calls.set runs; on the reject path the map is
never updated with a fresh object because the throw precedes the set. -/
def rateLimitedCall (requests : Nat) (window : String) (message : String)
    (f : Nat → JSVal) (st : RLState) (now : Int) : Except JSErr JSVal × RLState :=
  let windowMs := windowMsOf window
  let fresh := st.globalEntry.isNone
  let cd0 := st.globalEntry.getD ⟨0, now, none⟩
  let cd1 := if now - cd0.start > windowMs then { cd0 with count := 0, start := now }
             else cd0
  let stored1 : Option RLEntry := if fresh then st.globalEntry else some cd1
  if cd1.count ≥ requests then
    (.error (JSErr.rateLimitError message (windowMs - (now - cd1.start))),
     { st with globalEntry := stored1 })
  else
    let cd2 := { cd1 with count := cd1.count + 1 }
    let v := f st.baseCalls
    let cd3 := { cd2 with lastResult := some v }
    (.ok v, { globalEntry := some cd3, baseCalls := st.baseCalls + 1 })

/-- Running the rate-limited function at a list of timestamps, collecting
each call's outcome and the final state. -/
def rlRun (requests : Nat) (window : String) (message : String)
    (f : Nat → JSVal) : RLState → List Int → List (Except JSErr JSVal) × RLState
  | st, [] => ([], st)
  | st, t :: ts =>
      let r := rateLimitedCall requests window message f st t
      let rest := rlRun requests window message f r.2 ts
      (r.1 :: rest.1, rest.2)

/-- The initial rate limiter state: an empty calls map, no base calls. -/
def rlStart : RLState := ⟨none, 0⟩

/-! ### Claim C5: reject strategy with requests = 2 and window 1s -/

/-- Claim C5: with strategy reject, requests 2 and window 1s, for calls at
times t1 <= t2 <= t3 inside one window (t3 - t1 < 1000) and a later call
at t4 after the window has elapsed (t4 - t1 > 1000): the first two calls
invoke the base function and return its results; the third raises a
rate-limit failure carrying the positive retry-after value
1000 - (t3 - t1), raised before the base function executes (the base has
still run only twice when the fourth call starts); and the call at t4
invokes the base function again. -/
theorem c5_rate_limit_reject (f : Nat → JSVal) (t1 t2 t3 t4 : Int)
    (_h12 : t1 ≤ t2) (h23 : t2 ≤ t3) (hin : t3 - t1 < 1000)
    (hafter : t4 - t1 > 1000) :
    rlRun 2 "1s" "Rate limit exceeded" f rlStart [t1, t2, t3, t4] =
      ([.ok (f 0), .ok (f 1),
        .error (JSErr.rateLimitError "Rate limit exceeded" (1000 - (t3 - t1))),
        .ok (f 2)],
       ⟨some ⟨1, t4, some (f 2)⟩, 3⟩) ∧
    1000 - (t3 - t1) > 0 := by
  have hw : windowMsOf "1s" = 1000 := rfl
  have hno1 : ¬ ((1000 : Int) < t1 - t1) := by omega
  have hno2 : ¬ ((1000 : Int) < t2 - t1) := by omega
  have hno3 : ¬ ((1000 : Int) < t3 - t1) := by omega
  have hyes4 : (1000 : Int) < t4 - t1 := hafter
  constructor
  · simp only [rlRun, rateLimitedCall, rlStart, hw]
    norm_num [Option.getD_none, Option.isNone_none, Option.getD_some,
      Option.isNone_some, gt_iff_lt, hno1, hno2, hno3, hyes4]
  · omega

/-- Witness for C5 at concrete timestamps 0, 1, 2, 1001 with the identity
numbering base function. -/
theorem c5_rate_limit_reject_witness :
    rlRun 2 "1s" "Rate limit exceeded" (fun n => JSVal.num n) rlStart [0, 1, 2, 1001] =
      ([.ok (JSVal.num 0), .ok (JSVal.num 1),
        .error (JSErr.rateLimitError "Rate limit exceeded" 998),
        .ok (JSVal.num 2)],
       ⟨some ⟨1, 1001, some (JSVal.num 2)⟩, 3⟩) := by
  have h := (c5_rate_limit_reject (fun n => JSVal.num n) 0 1 2 1001
    (by omega) (by omega) (by omega) (by omega)).1
  simpa using h

/-! ### validate (source lines 789-854) -/

/-- typeof for the modelled values (typeof null is the string object). -/
def jsTypeof : JSVal → String
  | .undef => "undefined"
  | .null => "object"
  | .num _ => "number"
  | .str _ => "string"
  | .bool _ => "boolean"

/-- The JavaScript loose comparison value == null, true exactly for null
and undefined. -/
def isNullish : JSVal → Bool
  | .undef => true
  | .null => true
  | _ => false

/-- Reading value.length: a string yields its length, null and undefined
throw a TypeError, and every other modelled value yields the undefined
property (none), whose numeric comparisons are all false. -/
def jsLength : JSVal → Except JSErr (Option Int)
  | .str s => .ok (some (s.length : Int))
  | .undef => .error (JSErr.typeError "Cannot read properties of undefined")
  | .null => .error (JSErr.typeError "Cannot read properties of null")
  | _ => .ok none

/-- ToNumber coercion as needed by the relational comparison value < m in
the number-typed rule branch.  null coerces to 0, booleans to 0 or 1,
undefined to NaN (none).  A string operand is unreachable in that branch:
the type check has already thrown for every non-nullish non-number. -/
def jsNumOf : JSVal → Option Int
  | .num n => some n
  | .null => some 0
  | .bool b => some (if b then 1 else 0)
  | .undef => none
  | .str _ => none

/-- The JavaScript comparison value < m (false when the value is NaN). -/
def jsLtNum (v : JSVal) (m : Int) : Bool :=
  match jsNumOf v with
  | some n => decide (n < m)
  | none => false

/-- The JavaScript comparison value > m (false when the value is NaN). -/
def jsGtNum (v : JSVal) (m : Int) : Bool :=
  match jsNumOf v with
  | some n => decide (m < n)
  | none => false

/-- One per-position rule of the validate configuration (source lines
794-831).  The pattern field models the regular expression through its
test predicate; the validate field is the custom predicate. -/
structure VRule where
  required : Bool := false
  type : Option String := none
  min : Option Int := none
  max : Option Int := none
  pattern : Option (String → Bool) := none
  validate : Option (JSVal → Bool) := none
  message : Option String := none

/-- The fieldName carried for parameter number index. -/
def pname (index : Nat) : String := "param" ++ toString index

/-- Sequencing two checks: the first thrown error wins, matching the
sequential if-throw statements of validatedMethod. -/
def seqE (a b : Except JSErr Unit) : Except JSErr Unit :=
  match a with
  | .ok _ => b
  | .error e => .error e

/-- The required check (source lines 800-802). -/
def checkRequired (rule : VRule) (index : Nat) (value : JSVal) : Except JSErr Unit :=
  if rule.required && isNullish value then
    .error (JSErr.validationError ("Parameter " ++ toString index ++ " is required")
      (pname index))
  else .ok ()

/-- The type check (source lines 804-806), skipped for nullish values. -/
def checkType (rule : VRule) (index : Nat) (value : JSVal) : Except JSErr Unit :=
  match rule.type with
  | some t =>
      if !isNullish value && (jsTypeof value != t) then
        .error (JSErr.validationError
          ("Parameter " ++ toString index ++ " must be of type " ++ t) (pname index))
      else .ok ()
  | none => .ok ()

/-- The min check (source lines 808-814): a length comparison when the
rule is typed string, a numeric comparison when typed number, and no check
for any other declared or missing type. -/
def checkMin (rule : VRule) (index : Nat) (value : JSVal) : Except JSErr Unit :=
  match rule.min with
  | some m =>
      if rule.type = some "string" then
        match jsLength value with
        | .error e => .error e
        | .ok (some len) =>
            if len < m then
              .error (JSErr.validationError
                ("Parameter " ++ toString index ++ " must be >= " ++ toString m)
                (pname index))
            else .ok ()
        | .ok none => .ok ()
      else if rule.type = some "number" then
        if jsLtNum value m then
          .error (JSErr.validationError
            ("Parameter " ++ toString index ++ " must be >= " ++ toString m)
            (pname index))
        else .ok ()
      else .ok ()
  | none => .ok ()

/-- The max check (source lines 816-822), mirroring the min check. -/
def checkMax (rule : VRule) (index : Nat) (value : JSVal) : Except JSErr Unit :=
  match rule.max with
  | some m =>
      if rule.type = some "string" then
        match jsLength value with
        | .error e => .error e
        | .ok (some len) =>
            if m < len then
              .error (JSErr.validationError
                ("Parameter " ++ toString index ++ " must be <= " ++ toString m)
                (pname index))
            else .ok ()
        | .ok none => .ok ()
      else if rule.type = some "number" then
        if jsGtNum value m then
          .error (JSErr.validationError
            ("Parameter " ++ toString index ++ " must be <= " ++ toString m)
            (pname index))
        else .ok ()
      else .ok ()
  | none => .ok ()

/-- The pattern check (source lines 824-826): only string values are
tested against the regular expression. -/
def checkPattern (rule : VRule) (index : Nat) (value : JSVal) : Except JSErr Unit :=
  match rule.pattern with
  | some p =>
      match value with
      | .str s =>
          if p s = false then
            .error (JSErr.validationError
              ("Parameter " ++ toString index ++ " does not match required pattern")
              (pname index))
          else .ok ()
      | _ => .ok ()
  | none => .ok ()

/-- The custom predicate check (source lines 828-830). -/
def checkCustom (rule : VRule) (index : Nat) (value : JSVal) : Except JSErr Unit :=
  match rule.validate with
  | some pred =>
      if pred value = false then
        .error (JSErr.validationError
          (rule.message.getD ("Parameter " ++ toString index ++ " validation failed"))
          (pname index))
      else .ok ()
  | none => .ok ()

/-- All checks of one positional rule, in the statement order of the
source: required, type, min, max, pattern, custom predicate. -/
def checkParamRule (rule : VRule) (index : Nat) (value : JSVal) : Except JSErr Unit :=
  seqE (checkRequired rule index value)
    (seqE (checkType rule index value)
      (seqE (checkMin rule index value)
        (seqE (checkMax rule index value)
          (seqE (checkPattern rule index value)
            (checkCustom rule index value)))))

/-- The forEach over config.params (source lines 795-832): entries that are
not rule objects are skipped, the value checked at position index is
args[index] (undefined when the argument list is shorter). -/
def checkParamsFrom (params : List (Option VRule)) (args : List JSVal)
    (index : Nat) : Except JSErr Unit :=
  match params with
  | [] => .ok ()
  | none :: rest => checkParamsFrom rest args (index + 1)
  | some rule :: rest =>
      seqE (checkParamRule rule index (args.getD index JSVal.undef))
        (checkParamsFrom rest args (index + 1))

/-- The return-value checks (source lines 837-849): only the required,
type and custom-predicate rule classes are applied to the result, each
naming the field return. -/
def checkReturnRule (rr : VRule) (result : JSVal) : Except JSErr Unit :=
  seqE
    (if rr.required && isNullish result then
      .error (JSErr.validationError "Return value is required" "return")
    else .ok ())
    (seqE
      (match rr.type with
       | some t =>
          if !isNullish result && (jsTypeof result != t) then
            .error (JSErr.validationError ("Return value must be of type " ++ t) "return")
          else .ok ()
       | none => .ok ())
      (match rr.validate with
       | some pred =>
          if pred result = false then
            .error (JSErr.validationError (rr.message.getD "Return value validation failed")
              "return")
          else .ok ()
       | none => .ok ()))

/-- validatedMethod (source lines 794-852): parameter checks run before
the base function, then the base function, then the return checks; the
result of the base function is returned unchanged when every check
passes. -/
def validatedCall (params : List (Option VRule)) (ret : Option VRule)
    (f : List JSVal → Except JSErr JSVal) (args : List JSVal) : Except JSErr JSVal :=
  match checkParamsFrom params args 0 with
  | .error e => .error e
  | .ok _ =>
      match f args with
      | .error e => .error e
      | .ok result =>
          match (match ret with
                 | some rr => checkReturnRule rr result
                 | none => .ok ()) with
          | .error e => .error e
          | .ok _ => .ok result

/-! ### Claim C6: validate rule order, position naming, return checks -/

/-- A rule requiring a number of at least 5, used to contrast parameter
checking (where the min rule class applies) with return checking (where
it is silently ignored). -/
def numAtLeast5 : VRule := { type := some "number", min := some 5 }

/-- Claim C6 counterexample: the claim says the same rule classes are
applied to the return value, but a return rule typed number with min 5
accepts the returned number 3 (the min class is never checked on returns),
while the identical rule as a parameter rule rejects the same value 3. -/
theorem c6_validate_counterexample :
    validatedCall [] (some numAtLeast5) (fun _ => .ok (JSVal.num 3)) [] =
      .ok (JSVal.num 3) ∧
    checkParamRule numAtLeast5 0 (JSVal.num 3) =
      .error (JSErr.validationError "Parameter 0 must be >= 5" "param0") := by
  exact ⟨rfl, rfl⟩

/-- Claim C6, amended: before the base function is invoked, each positional
rule is checked in the order required, type, min, max (length for rules
typed string, numeric for rules typed number, no min or max check for any
other declared or missing type), pattern, custom predicate, raising a
validation failure on the first violation that names the offending
parameter position; a parameter failure is raised before the base function
executes; after the base function returns, only the required, type and
custom-predicate rule classes are applied to the return value (min, max
and pattern are not applied to returns). -/
theorem c6_validate_order_amended :
    (∀ (rule : VRule) (index : Nat) (v : JSVal),
      rule.required = true → isNullish v = true →
      checkParamRule rule index v = .error (JSErr.validationError
        ("Parameter " ++ toString index ++ " is required") (pname index))) ∧
    (∀ (rule : VRule) (index : Nat) (v : JSVal) (t : String),
      rule.type = some t → isNullish v = false → jsTypeof v ≠ t →
      checkParamRule rule index v = .error (JSErr.validationError
        ("Parameter " ++ toString index ++ " must be of type " ++ t) (pname index))) ∧
    (∀ (rule : VRule) (index : Nat) (s : String) (m : Int),
      rule.type = some "string" → rule.min = some m → (s.length : Int) < m →
      checkParamRule rule index (.str s) = .error (JSErr.validationError
        ("Parameter " ++ toString index ++ " must be >= " ++ toString m) (pname index))) ∧
    (∀ (rule : VRule) (index : Nat) (n m : Int),
      rule.type = some "number" → rule.min = some m → n < m →
      checkParamRule rule index (.num n) = .error (JSErr.validationError
        ("Parameter " ++ toString index ++ " must be >= " ++ toString m) (pname index))) ∧
    (∀ (rule : VRule) (index : Nat) (v : JSVal),
      rule.type = none →
      checkParamRule rule index v =
        checkParamRule { rule with min := none, max := none } index v) ∧
    (∀ (rule : VRule) (index : Nat) (s : String) (m : Int),
      rule.type = some "string" → rule.min = none → rule.max = some m →
      m < (s.length : Int) →
      checkParamRule rule index (.str s) = .error (JSErr.validationError
        ("Parameter " ++ toString index ++ " must be <= " ++ toString m) (pname index))) ∧
    (∀ (rule : VRule) (index : Nat) (s : String) (p : String → Bool),
      rule.type = none → rule.pattern = some p → p s = false →
      checkParamRule rule index (.str s) = .error (JSErr.validationError
        ("Parameter " ++ toString index ++ " does not match required pattern")
        (pname index))) ∧
    (∀ (rule : VRule) (index : Nat) (v : JSVal) (pred : JSVal → Bool),
      rule.type = none → rule.pattern = none → rule.validate = some pred →
      pred v = false → isNullish v = false →
      checkParamRule rule index v = .error (JSErr.validationError
        (rule.message.getD ("Parameter " ++ toString index ++ " validation failed"))
        (pname index))) ∧
    (∀ (params : List (Option VRule)) (ret : Option VRule)
        (f : List JSVal → Except JSErr JSVal) (args : List JSVal) (e : JSErr),
      checkParamsFrom params args 0 = .error e →
      validatedCall params ret f args = .error e) ∧
    (∀ (rr : VRule) (v : JSVal),
      checkReturnRule rr v =
        checkReturnRule { rr with min := none, max := none, pattern := none } v) ∧
    (∀ (rr : VRule) (v : JSVal),
      rr.required = true → isNullish v = true →
      checkReturnRule rr v =
        .error (JSErr.validationError "Return value is required" "return")) ∧
    (∀ (rr : VRule) (v : JSVal) (t : String),
      rr.type = some t → isNullish v = false → jsTypeof v ≠ t →
      checkReturnRule rr v =
        .error (JSErr.validationError ("Return value must be of type " ++ t) "return")) := by
  refine ⟨?_, ?_, ?_, ?_, ?_, ?_, ?_, ?_, ?_, ?_, ?_, ?_⟩
  · intro rule index v hr hn
    simp [checkParamRule, checkRequired, hr, hn, seqE]
  · intro rule index v t ht hn hty
    have hbne : (jsTypeof v != t) = true := by
      simp [bne_iff_ne]
      exact hty
    simp [checkParamRule, checkRequired, checkType, hn, ht, hbne, seqE,
      Bool.and_eq_true]
  · intro rule index s m ht hm hlen
    simp [checkParamRule, checkRequired, checkType, checkMin, ht, hm, hlen,
      isNullish, jsTypeof, jsLength, seqE]
  · intro rule index n m ht hm hlt
    simp [checkParamRule, checkRequired, checkType, checkMin, ht, hm,
      isNullish, jsTypeof, jsLtNum, jsNumOf, hlt, seqE]
  · intro rule index v ht
    cases hmin : rule.min <;> cases hmax : rule.max <;>
      simp [checkParamRule, checkRequired, checkType, checkMin, checkMax,
        checkPattern, checkCustom, ht, hmin, hmax, seqE]
  · intro rule index s m ht hmin hmax hlen
    simp [checkParamRule, checkRequired, checkType, checkMin, checkMax, ht,
      hmin, hmax, hlen, isNullish, jsTypeof, jsLength, seqE]
  · intro rule index s p ht hp hps
    cases hmin : rule.min <;> cases hmax : rule.max <;>
      simp [checkParamRule, checkRequired, checkType, checkMin, checkMax,
        checkPattern, ht, hp, hps, hmin, hmax, isNullish, seqE]
  · intro rule index v pred ht hp hv hpred hn
    cases hmin : rule.min <;> cases hmax : rule.max <;>
      simp [checkParamRule, checkRequired, checkType, checkMin, checkMax,
        checkPattern, checkCustom, ht, hp, hv, hpred, hn, hmin, hmax, seqE]
  · intro params ret f args e h
    simp [validatedCall, h]
  · intro rr v
    rfl
  · intro rr v hr hn
    simp [checkReturnRule, hr, hn, seqE]
  · intro rr v t ht hn hty
    have hbne : (jsTypeof v != t) = true := by
      simp [bne_iff_ne]
      exact hty
    simp [checkReturnRule, ht, hn, hbne, seqE, Bool.and_eq_true]

/-- Witness for the amended C6 theorem: the spec's example rule, type
string with required true and min 3, rejects a missing argument with a
required failure naming param0, rejects the two-character string "ab" with
a min failure naming param0, and a conforming call returns the base
result unchanged. -/
theorem c6_validate_order_amended_witness :
    checkParamRule { required := true, type := some "string", min := some 3 } 0
        JSVal.undef =
      .error (JSErr.validationError "Parameter 0 is required" "param0") ∧
    checkParamRule { required := true, type := some "string", min := some 3 } 0
        (JSVal.str "ab") =
      .error (JSErr.validationError "Parameter 0 must be >= 3" "param0") ∧
    validatedCall [some { required := true, type := some "string", min := some 3 }]
        none (fun _ => .ok (JSVal.str "ok")) [JSVal.str "abc"] =
      .ok (JSVal.str "ok") := by
  refine ⟨?_, ?_, by rfl⟩
  · exact c6_validate_order_amended.1
      { required := true, type := some "string", min := some 3 } 0 JSVal.undef rfl rfl
  · exact (c6_validate_order_amended.2.2.1)
      { required := true, type := some "string", min := some 3 } 0 "ab" 3 rfl rfl
      (by decide)

/-! ### Claim C1 machinery: instrumented runs of the LRU cache -/

/-- One cache operation of a client session. -/
inductive CacheOp where
  | get (k : String)
  | set (k : String) (v : JSVal)
deriving DecidableEq, Repr

/-- Applying one operation to the cache. -/
def applyOp (c : UniversalLRU) : CacheOp → UniversalLRU
  | .get k => (c.get k).2
  | .set k v => c.set k v

/-- The key touched by an operation, in the sense of the claim: a get that
hits moves its key to the most-recent position, a set always does; a get
that misses touches nothing. -/
def touchOf (c : UniversalLRU) : CacheOp → Option String
  | .get k => if (c.entries.lookup k).isSome then some k else none
  | .set k _ => some k

/-- Recording a touch at step i in the last-touch map. -/
def updT (τ : String → Option Nat) (o : Option String) (i : Nat) :
    String → Option Nat :=
  match o with
  | some k => fun s => if s = k then some i else τ s
  | none => τ

/-- Running a list of operations while recording, for every key, the step
index of its most recent touch. -/
def runT (c : UniversalLRU) (τ : String → Option Nat) (i : Nat) :
    List CacheOp → UniversalLRU × (String → Option Nat)
  | [] => (c, τ)
  | op :: ops => runT (applyOp c op) (updT τ (touchOf c op) i) (i + 1) ops

/-- Running a list of operations on a fresh cache of the given capacity. -/
def runFromEmpty (N : Int) (ops : List CacheOp) :
    UniversalLRU × (String → Option Nat) :=
  runT (UniversalLRU.mk0 N) (fun _ => none) 0 ops

/-- The keys currently stored, in Map iteration order (oldest first). -/
def keysOf (c : UniversalLRU) : List String := c.entries.map Prod.fst

/-- Key a was last touched strictly before key b. -/
def TouchLT (τ : String → Option Nat) (a b : String) : Prop :=
  ∀ ta tb, τ a = some ta → τ b = some tb → ta < tb

/-- The run invariant after i steps: stored keys are distinct, every
stored key has a recorded touch before now, the Map iteration order is
exactly ascending last-touch order, and (for positive capacity) the entry
count never exceeds the capacity. -/
structure CacheInv (i : Nat) (c : UniversalLRU) (τ : String → Option Nat) : Prop where
  nodup : (keysOf c).Nodup
  times : ∀ k ∈ keysOf c, ∃ t, τ k = some t ∧ t < i
  sorted : (keysOf c).Pairwise (TouchLT τ)
  bound : 1 ≤ c.maxSize → (c.entries.length : Int) ≤ c.maxSize

theorem keys_eraseKey (l : List (String × JSVal)) (k : String) :
    (eraseKey l k).map Prod.fst = (l.map Prod.fst).filter (fun s => s != k) := by
  induction l with
  | nil => rfl
  | cons e t ih =>
      simp only [eraseKey, List.filter_cons, List.map_cons] at ih ⊢
      cases h : (e.1 != k) <;> simp [h, ih]

theorem keysOf_tail (c : UniversalLRU) :
    c.entries.tail.map Prod.fst = (c.entries.map Prod.fst).tail := by
  cases c.entries <;> rfl

/-- The three order-related invariant fields carry over to a keys list of
the shape survivors ++ [k]: survivors are previously stored keys that do
not contain k, and k has just been touched at step i. -/
theorem inv_fields_touch (i : Nat) (τ : String → Option Nat)
    (oldKeys survivors : List String) (k : String)
    (hsubset : ∀ s ∈ survivors, s ∈ oldKeys)
    (hnodup : survivors.Nodup)
    (hknotin : k ∉ survivors)
    (htimes : ∀ s ∈ oldKeys, ∃ t, τ s = some t ∧ t < i)
    (hpw : survivors.Pairwise (TouchLT τ)) :
    (survivors ++ [k]).Nodup ∧
    (∀ s ∈ survivors ++ [k],
      ∃ t, (fun s => if s = k then some i else τ s) s = some t ∧ t < i + 1) ∧
    (survivors ++ [k]).Pairwise (TouchLT (fun s => if s = k then some i else τ s)) := by
  refine ⟨?_, ?_, ?_⟩
  · simp only [List.nodup_append, List.nodup_cons, List.not_mem_nil,
      not_false_iff, List.nodup_nil, and_true, true_and]
    constructor
    · exact hnodup
    · intro a ha
      simp only [List.mem_singleton]
      intro hak
      exact hknotin (hak ▸ ha)
  · intro s hs
    rcases List.mem_append.mp hs with hs | hs
    · have hne : s ≠ k := fun habs => hknotin (habs ▸ hs)
      rcases htimes s (hsubset s hs) with ⟨t, ht, hti⟩
      exact ⟨t, by simpa [hne] using ht, by omega⟩
    · have : s = k := List.mem_singleton.mp hs
      subst this
      exact ⟨i, by simp, by omega⟩
  · rw [List.pairwise_append]
    refine ⟨?_, List.pairwise_singleton _ _, ?_⟩
    · refine hpw.imp_of_mem ?_
      intro a b ha hb hab
      have hna : a ≠ k := fun habs => hknotin (habs ▸ ha)
      have hnb : b ≠ k := fun habs => hknotin (habs ▸ hb)
      intro ta tb h1 h2
      dsimp only at h1 h2
      rw [if_neg hna] at h1
      rw [if_neg hnb] at h2
      exact hab ta tb h1 h2
    · intro a ha b hb
      have hbk : b = k := List.mem_singleton.mp hb
      subst hbk
      have hna : a ≠ b := fun habs => hknotin (habs ▸ ha)
      intro ta tb h1 h2
      dsimp only at h1 h2
      rw [if_neg hna] at h1
      rw [if_pos rfl] at h2
      rcases htimes a (hsubset a ha) with ⟨t, ht, hti⟩
      rw [ht] at h1
      cases h1
      cases h2
      omega

/-- Invariant step for the shape shared by a get hit and a set of an
existing key: the key is deleted and re-appended, becoming the
most-recently-used entry. -/
theorem inv_touch_erase (i : Nat) (c c2 : UniversalLRU) (τ : String → Option Nat)
    (k : String) (v : JSVal)
    (he : c2.entries = eraseKey c.entries k ++ [(k, v)])
    (hm : c2.maxSize = c.maxSize)
    (hmem : k ∈ keysOf c)
    (h : CacheInv i c τ) :
    CacheInv (i + 1) c2 (fun s => if s = k then some i else τ s) := by
  have hkeys : keysOf c2 = (keysOf c).filter (fun s => s != k) ++ [k] := by
    simp only [keysOf, he, List.map_append, keys_eraseKey, List.map_cons,
      List.map_nil]
  obtain ⟨hnd, htm, hpw⟩ := inv_fields_touch i τ (keysOf c)
    ((keysOf c).filter (fun s => s != k)) k
    (fun s hs => (List.mem_filter.mp hs).1)
    (h.nodup.filter _)
    (by intro habs
        have := (List.mem_filter.mp habs).2
        simp at this)
    h.times
    (h.sorted.sublist (List.filter_sublist _))
  refine ⟨?_, ?_, ?_, ?_⟩
  · rw [hkeys]; exact hnd
  · rw [hkeys]; exact htm
  · rw [hkeys]; exact hpw
  · intro h1
    have hb := h.bound (hm ▸ h1)
    have hlt := eraseKey_length_lt c.entries k hmem
    rw [he, hm]
    simp only [List.length_append, List.length_cons, List.length_nil]
    push_cast
    omega

/-- Invariant step for a set of a new key at capacity: the head of the
iteration order is evicted and the new key appended. -/
theorem inv_touch_tail (i : Nat) (c c2 : UniversalLRU) (τ : String → Option Nat)
    (k : String) (v : JSVal)
    (he : c2.entries = c.entries.tail ++ [(k, v)])
    (hm : c2.maxSize = c.maxSize)
    (hnot : k ∉ keysOf c)
    (h : CacheInv i c τ) :
    CacheInv (i + 1) c2 (fun s => if s = k then some i else τ s) := by
  have hkeys : keysOf c2 = (keysOf c).tail ++ [k] := by
    simp only [keysOf, he, List.map_append, keysOf_tail, List.map_cons, List.map_nil]
  have hsubt : ∀ s ∈ (keysOf c).tail, s ∈ keysOf c :=
    fun s hs => (List.tail_sublist _).subset hs
  obtain ⟨hnd, htm, hpw⟩ := inv_fields_touch i τ (keysOf c) ((keysOf c).tail) k
    hsubt
    (h.nodup.sublist (List.tail_sublist _))
    (fun habs => hnot (hsubt k habs))
    h.times
    (h.sorted.sublist (List.tail_sublist _))
  refine ⟨?_, ?_, ?_, ?_⟩
  · rw [hkeys]; exact hnd
  · rw [hkeys]; exact htm
  · rw [hkeys]; exact hpw
  · intro h1
    have hb := h.bound (hm ▸ h1)
    have ht : c.entries.tail.length = c.entries.length - 1 := List.length_tail _
    rw [he, hm]
    simp only [List.length_append, List.length_cons, List.length_nil]
    rw [hm] at h1
    push_cast
    omega

/-- Invariant step for a set of a new key below capacity. -/
theorem inv_touch_append (i : Nat) (c c2 : UniversalLRU) (τ : String → Option Nat)
    (k : String) (v : JSVal)
    (he : c2.entries = c.entries ++ [(k, v)])
    (hm : c2.maxSize = c.maxSize)
    (hnot : k ∉ keysOf c)
    (hlen : (c.entries.length : Int) < c.maxSize)
    (h : CacheInv i c τ) :
    CacheInv (i + 1) c2 (fun s => if s = k then some i else τ s) := by
  have hkeys : keysOf c2 = keysOf c ++ [k] := by
    simp only [keysOf, he, List.map_append, List.map_cons, List.map_nil]
  obtain ⟨hnd, htm, hpw⟩ := inv_fields_touch i τ (keysOf c) (keysOf c) k
    (fun s hs => hs) h.nodup hnot h.times h.sorted
  refine ⟨?_, ?_, ?_, ?_⟩
  · rw [hkeys]; exact hnd
  · rw [hkeys]; exact htm
  · rw [hkeys]; exact hpw
  · intro _
    rw [he, hm]
    simp only [List.length_append, List.length_cons, List.length_nil]
    push_cast
    omega

/-- The invariant is preserved by every cache operation. -/
theorem cacheInv_step (i : Nat) (c : UniversalLRU) (τ : String → Option Nat)
    (op : CacheOp) (h : CacheInv i c τ) :
    CacheInv (i + 1) (applyOp c op) (updT τ (touchOf c op) i) := by
  cases op with
  | get k =>
      cases hlk : c.entries.lookup k with
      | none =>
          have hc2 : applyOp c (.get k) = { c with misses := c.misses + 1 } := by
            simp [applyOp, UniversalLRU.get, hlk]
          have ht2 : updT τ (touchOf c (.get k)) i = τ := by
            simp [touchOf, updT, hlk]
          rw [hc2, ht2]
          refine ⟨h.nodup, ?_, h.sorted, h.bound⟩
          intro s hs
          rcases h.times s hs with ⟨t, ht, hti⟩
          exact ⟨t, ht, by omega⟩
      | some v =>
          have hc2 : applyOp c (.get k) =
              { c with entries := eraseKey c.entries k ++ [(k, v)],
                       hits := c.hits + 1 } := by
            simp [applyOp, UniversalLRU.get, hlk]
          have ht2 : updT τ (touchOf c (.get k)) i =
              fun s => if s = k then some i else τ s := by
            simp [touchOf, updT, hlk]
          rw [hc2, ht2]
          exact inv_touch_erase i c _ τ k v rfl rfl (mem_of_lookup_some _ _ _ hlk) h
  | set k v =>
      by_cases hlk : (c.entries.lookup k).isSome
      · rcases Option.isSome_iff_exists.mp hlk with ⟨v0, hv0⟩
        have hc2 : applyOp c (.set k v) =
            { c with entries := eraseKey c.entries k ++ [(k, v)] } := by
          simp [applyOp, UniversalLRU.set, hlk]
        rw [hc2]
        exact inv_touch_erase i c _ τ k v rfl rfl (mem_of_lookup_some _ _ _ hv0) h
      · have hnot : k ∉ keysOf c := fun hmem => hlk (lookup_isSome_of_mem _ _ hmem)
        by_cases hcap : (c.entries.length : Int) ≥ c.maxSize
        · have hc2 : applyOp c (.set k v) =
              { c with entries := c.entries.tail ++ [(k, v)] } := by
            simp [applyOp, UniversalLRU.set, hlk, hcap]
          rw [hc2]
          exact inv_touch_tail i c _ τ k v rfl rfl hnot h
        · have hc2 : applyOp c (.set k v) =
              { c with entries := c.entries ++ [(k, v)] } := by
            simp [applyOp, UniversalLRU.set, hlk, hcap]
          rw [hc2]
          push_neg at hcap
          exact inv_touch_append i c _ τ k v rfl rfl hnot hcap h

/-- The invariant holds after running any operation list from an invariant
state. -/
theorem cacheInv_runT (ops : List CacheOp) :
    ∀ (i : Nat) (c : UniversalLRU) (τ : String → Option Nat), CacheInv i c τ →
      CacheInv (i + ops.length) (runT c τ i ops).1 (runT c τ i ops).2 := by
  induction ops with
  | nil => intro i c τ h; simpa [runT] using h
  | cons op rest ih =>
      intro i c τ h
      have hstep := cacheInv_step i c τ op h
      have hrest := ih (i + 1) (applyOp c op) (updT τ (touchOf c op) i) hstep
      have harith : i + 1 + rest.length = i + (op :: rest).length := by
        simp [List.length_cons]
        omega
      rw [harith] at hrest
      exact hrest

/-- The invariant of the empty cache: no keys, no touches. -/
theorem cacheInv_start (N : Int) (hN : 1 ≤ N) :
    CacheInv 0 (UniversalLRU.mk0 N) (fun _ => none) := by
  refine ⟨?_, ?_, ?_, ?_⟩
  · exact List.nodup_nil
  · intro s hs; simp [keysOf, UniversalLRU.mk0] at hs
  · exact List.Pairwise.nil
  · intro _
    simp only [UniversalLRU.mk0, List.length_nil, Nat.cast_zero]
    omega

theorem applyOp_maxSize (c : UniversalLRU) (op : CacheOp) :
    (applyOp c op).maxSize = c.maxSize := by
  cases op with
  | get k => cases hlk : c.entries.lookup k <;> simp [applyOp, UniversalLRU.get, hlk]
  | set k v =>
      simp only [applyOp, UniversalLRU.set]
      split
      · rfl
      · split <;> rfl

theorem runT_maxSize (ops : List CacheOp) :
    ∀ (c : UniversalLRU) (τ : String → Option Nat) (i : Nat),
      (runT c τ i ops).1.maxSize = c.maxSize := by
  induction ops with
  | nil => intro c τ i; rfl
  | cons op rest ih =>
      intro c τ i
      simp only [runT]
      rw [ih (applyOp c op) (updT τ (touchOf c op) i) (i + 1), applyOp_maxSize]

theorem entries_cons_of_head (l : List (String × JSVal)) (p : String × JSVal)
    (h : l.head? = some p) : l = p :: l.tail := by
  cases l with
  | nil => cases h
  | cons a t =>
      simp only [List.head?] at h
      cases h
      rfl

/-- Claim C1: for every capacity N of at least 1 and every operation
sequence run on a fresh cache, the stored entry count never exceeds N
(every prefix of a longer run is itself a run, so the bound holds
throughout); moreover, whenever the cache is at capacity and holds a head
entry, inserting a key that is not cached evicts exactly that head key,
which is the least-recently-touched cached key (its recorded last touch
precedes that of every other cached key, where get hits and set
re-insertions count as touches), and a subsequent get on the evicted key
is a miss returning undefined and incrementing the miss counter. -/
theorem c1_lru_invariant (N : Int) (hN : 1 ≤ N) (ops : List CacheOp) :
    ((runFromEmpty N ops).1.entries.length : Int) ≤ N ∧
    (∀ (cNew : String) (vNew : JSVal) (ev : String) (evv : JSVal),
      (runFromEmpty N ops).1.entries.lookup cNew = none →
      ((runFromEmpty N ops).1.entries.length : Int) = N →
      (runFromEmpty N ops).1.entries.head? = some (ev, evv) →
      ((∀ q ∈ keysOf (runFromEmpty N ops).1, q ≠ ev →
          ∀ tEv tq, (runFromEmpty N ops).2 ev = some tEv →
            (runFromEmpty N ops).2 q = some tq → tEv < tq) ∧
       ((runFromEmpty N ops).1.set cNew vNew).entries.lookup ev = none ∧
       (((runFromEmpty N ops).1.set cNew vNew).get ev).1 = JSVal.undef ∧
       (((runFromEmpty N ops).1.set cNew vNew).get ev).2.misses =
         ((runFromEmpty N ops).1.set cNew vNew).misses + 1)) := by
  have hinv : CacheInv (0 + ops.length) (runFromEmpty N ops).1 (runFromEmpty N ops).2 :=
    cacheInv_runT ops 0 (UniversalLRU.mk0 N) (fun _ => none) (cacheInv_start N hN)
  have hmax : (runFromEmpty N ops).1.maxSize = N :=
    runT_maxSize ops (UniversalLRU.mk0 N) (fun _ => none) 0
  constructor
  · have hb := hinv.bound (by rw [hmax]; exact hN)
    rw [hmax] at hb
    exact hb
  · intro cNew vNew ev evv hknone hlen hhead
    obtain ⟨ltail, hcons⟩ : ∃ t, (runFromEmpty N ops).1.entries = (ev, evv) :: t :=
      ⟨(runFromEmpty N ops).1.entries.tail, entries_cons_of_head _ _ hhead⟩
    have hkeys : keysOf (runFromEmpty N ops).1 = ev :: ltail.map Prod.fst := by
      rw [keysOf, hcons, List.map_cons]
    have hnd := hinv.nodup
    rw [hkeys, List.nodup_cons] at hnd
    have hsort := hinv.sorted
    rw [hkeys, List.pairwise_cons] at hsort
    have hknotmem : cNew ∉ keysOf (runFromEmpty N ops).1 := by
      intro hm
      have := lookup_isSome_of_mem _ _ hm
      rw [hknone] at this
      cases this
    have hevmem : ev ∈ keysOf (runFromEmpty N ops).1 := by
      rw [hkeys]; exact List.mem_cons_self _ _
    have hevne : ev ≠ cNew := fun habs => hknotmem (habs ▸ hevmem)
    have hcap : ((runFromEmpty N ops).1.entries.length : Int) ≥
        (runFromEmpty N ops).1.maxSize := by
      rw [hmax]; exact ge_of_eq hlen
    have hisnone : ((runFromEmpty N ops).1.entries.lookup cNew).isSome = false := by
      rw [hknone]; rfl
    have hset : (runFromEmpty N ops).1.set cNew vNew =
        { (runFromEmpty N ops).1 with entries := ltail ++ [(cNew, vNew)] } := by
      simp only [UniversalLRU.set, hisnone, Bool.false_eq_true, if_false]
      rw [if_pos hcap, hcons, List.tail_cons]
    have hlook2 : ((runFromEmpty N ops).1.set cNew vNew).entries.lookup ev = none := by
      rw [hset]
      dsimp only
      rw [lookup_append_of_left_none _ _ _ (lookup_none_of_not_mem _ _ hnd.1)]
      have hbe : (ev == cNew) = false := beq_eq_false_iff_ne.mpr hevne
      simp [List.lookup, hbe]
    refine ⟨?_, hlook2, ?_, ?_⟩
    · intro q hq hqev tEv tq h1 h2
      rw [hkeys] at hq
      rcases List.mem_cons.mp hq with hq | hq
      · exact absurd hq hqev
      · exact hsort.1 q hq tEv tq h1 h2
    · simp [UniversalLRU.get, hlook2]
    · simp [UniversalLRU.get, hlook2]

/-- A short client session for the C1 witness: insert a and b, then touch
a with a get hit, leaving b the least-recently-touched key. -/
def demoOps : List CacheOp :=
  [CacheOp.set "a" (JSVal.num 1), CacheOp.set "b" (JSVal.num 2), CacheOp.get "a"]

/-- Witness for C1 at capacity 2 and a concrete session: the size bound
holds, and inserting the new key c evicts b (the least-recently-touched
key, since a was re-touched by its get hit), whose subsequent get misses. -/
theorem c1_lru_invariant_witness :
    ((runFromEmpty 2 demoOps).1.entries.length : Int) ≤ 2 ∧
    ((runFromEmpty 2 demoOps).1.set "c" (JSVal.num 3)).entries.lookup "b" = none ∧
    (((runFromEmpty 2 demoOps).1.set "c" (JSVal.num 3)).get "b").1 = JSVal.undef := by
  have H := c1_lru_invariant 2 (by decide) demoOps
  have H2 := H.2 "c" (JSVal.num 3) "b" (JSVal.num 2) (by decide) (by decide) (by decide)
  exact ⟨H.1, H2.2.1, H2.2.2.1⟩

end Decortion
